import Mathlib

/-!
Verification of the Halton-sequence sampling core of rs_pbrt.

Shallow embedding of src/samplers/halton.rs together with the helper
mod_t from src/core/pbrt.rs.  Machine integers (i32 / i64 / u64) are
embedded as Int / Nat: every arithmetic operation performed by the
sampler stays far below the respective width (the scales are at most
243, the stride at most 31104, sample counts are per-pixel sample
indices), so no wrap-around is modelled.  Rust casts between integer
types are noted at each use.  The Rust RwLock cells hold plain values
here; an interior-mutability method becomes a function returning the
updated state next to its result.

The radical-inverse primitives and the prime/permutation tables live in
core::lowdiscrepancy, which is not part of the excerpted sources; those
definitions are modelled from the specification and marked as such.
Sample values are modelled in exact rational arithmetic following the
mathematical description of the radical inverse in the spec.
-/

namespace RsPbrt

/-- 2D integer point (core::geometry::Point2i, fields x y : i32/i64). -/
structure Point2i where
  x : Int
  y : Int
deriving DecidableEq, Repr

/-- 2D rational point standing for core::geometry::Point2f (Float fields,
modelled exactly). -/
structure Point2f where
  x : ℚ
  y : ℚ
deriving DecidableEq, Repr

/-- Integer bounds (core::geometry::Bounds2i). -/
structure Bounds2i where
  p_min : Point2i
  p_max : Point2i
deriving DecidableEq, Repr

/-- 2D integer vector (core::geometry::Vector2i), produced by
p_max - p_min in HaltonSampler::new. -/
structure Vector2i where
  x : Int
  y : Int
deriving DecidableEq, Repr

/-- core::pbrt::mod_t on signed integers: a - (a / b) * b, plus b when the
truncated remainder is negative.  Rust integer division truncates toward
zero, which is Int.tdiv. -/
def mod_t (a b : Int) : Int :=
  let result : Int := a - a.tdiv b * b
  if result < 0 then result + b else result

/-- K_MAX_RESOLUTION from src/samplers/halton.rs (an i32 constant). -/
def K_MAX_RESOLUTION : Int := 128

/-- extended_gcd from src/samplers/halton.rs.  The Rust function receives
u64 arguments (always nonnegative) and returns the Bezout coefficients
through two &mut i64; here it returns the pair (x, y).  The quotient d is
computed by i64 division of the nonnegative inputs, which is Nat
division. -/
def extended_gcd (a b : Nat) : Int × Int :=
  if b = 0 then (1, 0)
  else
    let p := extended_gcd b (a % b)
    (p.2, p.1 - ((a / b : Nat) : Int) * p.2)
termination_by b
decreasing_by exact Nat.mod_lt _ (Nat.pos_of_ne_zero (by assumption))

/-- multiplicative_inverse from src/samplers/halton.rs: the first Bezout
coefficient of extended_gcd(a, n), reduced by mod_t(x, n).  The Rust
function casts the (for n > 0 nonnegative) result to u64; the Int value
is kept here and the cast noted where it is consumed. -/
def multiplicative_inverse (a n : Nat) : Int :=
  mod_t (extended_gcd a n).1 (n : Int)

/-- The while loop of HaltonSampler::new:
while scale < bound { scale *= base; exp += 1 }.
Both call sites start from scale = 1 with base 2 or 3; the first two
conjuncts of the guard only certify termination and never change the
result reachable from those call sites (scale stays positive, base is
constant). -/
def scale_loop (base bound scale exp : Nat) : Nat × Nat :=
  if h : 1 ≤ scale ∧ 2 ≤ base ∧ scale < bound then
    scale_loop base bound (scale * base) (exp + 1)
  else
    (scale, exp)
termination_by bound - scale
decreasing_by
  have h2 : scale * 2 ≤ scale * base := Nat.mul_le_mul_left scale h.2.1
  omega

/-- Per-sampler state of HaltonSampler (src/samplers/halton.rs), including
the fields inherited from GlobalSampler and Sampler.  The two RwLock
cells hold their plain contents. -/
structure HaltonSampler where
  samples_per_pixel : Int
  base_scales : Point2i
  base_exponents : Point2i
  sample_stride : Nat
  mult_inverse : Int × Int
  pixel_for_offset : Point2i
  offset_for_current_pixel : Nat
  sample_at_pixel_center : Bool
  dimension : Int
  interval_sample_index : Nat
  array_start_dim : Int
  array_end_dim : Int
  current_pixel : Point2i
  current_pixel_sample_index : Int
  samples_1d_array_sizes : List Int
  samples_2d_array_sizes : List Int
  sample_array_1d : List (List ℚ)
  sample_array_2d : List (List Point2f)
  array_1d_offset : Nat
  array_2d_offset : Nat
deriving DecidableEq, Repr

/-- HaltonSampler::new.  The for-loop of the source over the two axes (base 2
for axis 0, base 3 for axis 1) is unrolled.  The loop bound
res[i].min(K_MAX_RESOLUTION) is an i32; scale (starting at 1) is compared
against it, which over Nat is comparison with its toNat. -/
def HaltonSampler.new (samples_per_pixel : Int) (sample_bounds : Bounds2i)
    (sample_at_pixel_center : Bool) : HaltonSampler :=
  let res : Vector2i :=
    { x := sample_bounds.p_max.x - sample_bounds.p_min.x
      y := sample_bounds.p_max.y - sample_bounds.p_min.y }
  let r0 := scale_loop 2 (min res.x K_MAX_RESOLUTION).toNat 1 0
  let r1 := scale_loop 3 (min res.y K_MAX_RESOLUTION).toNat 1 0
  { samples_per_pixel := samples_per_pixel
    base_scales := { x := (r0.1 : Int), y := (r1.1 : Int) }
    base_exponents := { x := (r0.2 : Int), y := (r1.2 : Int) }
    sample_stride := r0.1 * r1.1
    mult_inverse := (multiplicative_inverse r1.1 r0.1, multiplicative_inverse r0.1 r1.1)
    pixel_for_offset := { x := 0, y := 0 }
    offset_for_current_pixel := 0
    sample_at_pixel_center := sample_at_pixel_center
    dimension := 0
    interval_sample_index := 0
    array_start_dim := 5
    array_end_dim := 0
    current_pixel := { x := 0, y := 0 }
    current_pixel_sample_index := 0
    samples_1d_array_sizes := []
    samples_2d_array_sizes := []
    sample_array_1d := []
    sample_array_2d := []
    array_1d_offset := 0
    array_2d_offset := 0 }

/-- Accumulator loop of the inverse radical inverse: one iteration per
digit, peeling the lowest digit of inverse and pushing it onto index. -/
def iri_go (base inverse index : Nat) : Nat → Nat
  | 0 => index
  | Nat.succ k => iri_go base (inverse / base) (index * base + inverse % base) k

/-- Modelled from the spec: core::lowdiscrepancy::inverse_radical_inverse
(not under src/) reconstructs, from a value made of n_digits digits in
the given base, the originating integer index modulo base ^ n_digits, by
reading the digits back in reverse order. -/
def inverse_radical_inverse (base inverse n_digits : Nat) : Nat :=
  iri_go base inverse 0 n_digits

/-- HaltonSampler::get_index_for_sample.  The method mutates the two lock
cells through &self; here it returns the updated sampler with the result.
Casts: pm[i] (mod_t of an i32 by 128, nonnegative) and mult_inverse[i]
(nonnegative for positive modulus) go to u64 in the source; both become
toNat. -/
def HaltonSampler.get_index_for_sample (s : HaltonSampler) (sample_num : Nat) :
    HaltonSampler × Nat :=
  let s1 : HaltonSampler :=
    if s.current_pixel ≠ s.pixel_for_offset then
      let off : Nat :=
        if 1 < s.sample_stride then
          let pmx : Int := mod_t s.current_pixel.x K_MAX_RESOLUTION
          let pmy : Int := mod_t s.current_pixel.y K_MAX_RESOLUTION
          (inverse_radical_inverse 2 pmx.toNat s.base_exponents.x.toNat *
              (s.sample_stride / s.base_scales.x.toNat) * s.mult_inverse.1.toNat +
            inverse_radical_inverse 3 pmy.toNat s.base_exponents.y.toNat *
              (s.sample_stride / s.base_scales.y.toNat) * s.mult_inverse.2.toNat) %
            s.sample_stride
        else 0
      { s with offset_for_current_pixel := off, pixel_for_offset := s.current_pixel }
    else s
  (s1, s1.offset_for_current_pixel + sample_num * s.sample_stride)

/-- The per-pixel Halton offset as the claim describes it: reduce the
pixel coordinates modulo the max resolution, take per axis the
inverse-radical-inverse (base 2 then base 3, base_exponents[i] digits),
scale by (sample_stride / base_scales[i]) * mult_inverse[i], sum the two
axes and reduce modulo sample_stride. -/
def haltonOffsetSpec (s : HaltonSampler) (p : Point2i) : Nat :=
  (inverse_radical_inverse 2 (mod_t p.x K_MAX_RESOLUTION).toNat s.base_exponents.x.toNat *
      (s.sample_stride / s.base_scales.x.toNat) * s.mult_inverse.1.toNat +
    inverse_radical_inverse 3 (mod_t p.y K_MAX_RESOLUTION).toNat s.base_exponents.y.toNat *
      (s.sample_stride / s.base_scales.y.toNat) * s.mult_inverse.2.toNat) %
    s.sample_stride

/-- Modelled from the spec: the process-wide tables of
core::lowdiscrepancy (not under src/): the first primeTableSize primes
(primes), their prefix sums (primeSums, the offsets of the
digit-permutation slice of each prime inside the flattened table), and the
lazily-initialized, then frozen, random digit-permutation buffer
RADICAL_INVERSE_PERMUTATIONS (permTable, u16 entries as Nat).  The
permutation buffer is produced once by a seeded generator, so it is a
fixed value; its entries are abstract here and theorems state the
structural hypotheses they need about them. -/
structure LowDiscrepancyCtx where
  primeTableSize : Nat
  primes : Nat → Nat
  primeSums : Nat → Nat
  permTable : Nat → Nat

/-- Modelled from the spec: the radical inverse in a given base b ≥ 2
(core::lowdiscrepancy, not under src/): reverse the base-b digit
expansion of a into the fractional unit interval.  Exact rational value;
the Float rounding of the source is not modelled. -/
def radical_inverse_base (b a : Nat) : ℚ :=
  if h : 2 ≤ b ∧ a ≠ 0 then
    ((a % b : Nat) : ℚ) / (b : ℚ) + radical_inverse_base b (a / b) / (b : ℚ)
  else 0
termination_by a
decreasing_by exact Nat.div_lt_self (Nat.pos_of_ne_zero h.2) h.1

/-- Modelled from the spec: core::lowdiscrepancy::radical_inverse takes
the index of the prime base (base 2 for base_index 0, base 3 for
base_index 1). -/
def radical_inverse (ctx : LowDiscrepancyCtx) (base_index a : Nat) : ℚ :=
  radical_inverse_base (ctx.primes base_index) a

/-- Modelled from the spec: the scrambled radical inverse
(core::lowdiscrepancy, not under src/): the same digit expansion, each
digit remapped through the permutation before accumulation, with the
image of digit 0 under the permutation as the systematic correction term for the
infinite tail of zero digits ( perm 0 / (b - 1) scaled past the last
digit), keeping scrambled sequences low-discrepancy. -/
def scrambled_radical_inverse_base (b : Nat) (perm : Nat → Nat) (a : Nat) : ℚ :=
  if h : 2 ≤ b ∧ a ≠ 0 then
    ((perm (a % b) : Nat) : ℚ) / (b : ℚ) + scrambled_radical_inverse_base b perm (a / b) / (b : ℚ)
  else if 2 ≤ b then ((perm 0 : Nat) : ℚ) / ((b : ℚ) - 1)
  else 0
termination_by a
decreasing_by exact Nat.div_lt_self (Nat.pos_of_ne_zero h.2) h.1

/-- HaltonSampler::permutation_for_dimension: fatal (none) when dim is
outside [0, PRIME_TABLE_SIZE) - above, the explicit panic; below, the
wrapped usize cast indexes PRIME_SUMS out of bounds.  Otherwise the
permutation slice of the prime of that dimension, i.e. the flattened table
starting at the prime-sum offset. -/
def HaltonSampler.permutation_for_dimension (ctx : LowDiscrepancyCtx) (dim : Int) :
    Option (Nat → Nat) :=
  if 0 ≤ dim ∧ dim < (ctx.primeTableSize : Int) then
    some (fun j => ctx.permTable (ctx.primeSums dim.toNat + j))
  else none

/-- HaltonSampler::sample_dimension.  none models the panic inside
permutation_for_dimension.  Casts: index >> base_exponents[0] is the u64
shift (Nat shiftRight), index / base_scales[1] the u64 division; dim as
u16 into the table index is value-preserving for every dim below the
table size. -/
def HaltonSampler.sample_dimension (ctx : LowDiscrepancyCtx) (s : HaltonSampler)
    (index : Nat) (dim : Int) : Option ℚ :=
  if s.sample_at_pixel_center ∧ (dim = 0 ∨ dim = 1) then some (1 / 2 : ℚ)
  else if dim = 0 then
    some (radical_inverse ctx 0 (index >>> s.base_exponents.x.toNat))
  else if dim = 1 then
    some (radical_inverse ctx 1 (index / s.base_scales.y.toNat))
  else
    (HaltonSampler.permutation_for_dimension ctx dim).map
      (fun perm => scrambled_radical_inverse_base (ctx.primes dim.toNat) perm index)

/-- Total value of sample_dimension, used by the eager array fill of
start_pixel (where the reserved dimensions are inside the table in any
valid configuration; the source would panic otherwise). -/
def HaltonSampler.sample_dimension_val (ctx : LowDiscrepancyCtx) (s : HaltonSampler)
    (index : Nat) (dim : Int) : ℚ :=
  (HaltonSampler.sample_dimension ctx s index dim).getD 0

/-- Sampler::get_1d for HaltonSampler: skip the cursor to array_end_dim
when it sits inside the reserved array window, then draw
sample_dimension(interval_sample_index, dimension) and advance the
cursor by one. -/
def HaltonSampler.get_1d (ctx : LowDiscrepancyCtx) (s : HaltonSampler) :
    HaltonSampler × Option ℚ :=
  let d : Int :=
    if s.array_start_dim ≤ s.dimension ∧ s.dimension < s.array_end_dim then
      s.array_end_dim
    else s.dimension
  ({ s with dimension := d + 1 },
    HaltonSampler.sample_dimension ctx s s.interval_sample_index d)

/-- Sampler::get_2d for HaltonSampler: skip when dimension + 1 reaches
the array window and dimension has not passed it, then draw y from
dimension + 1 before x from dimension (the evaluation order of the source;
values only are modelled) and advance the cursor by two. -/
def HaltonSampler.get_2d (ctx : LowDiscrepancyCtx) (s : HaltonSampler) :
    HaltonSampler × (Option ℚ × Option ℚ) :=
  let d : Int :=
    if s.array_start_dim ≤ s.dimension + 1 ∧ s.dimension < s.array_end_dim then
      s.array_end_dim
    else s.dimension
  ({ s with dimension := d + 2 },
    (HaltonSampler.sample_dimension ctx s s.interval_sample_index d,
      HaltonSampler.sample_dimension ctx s s.interval_sample_index (d + 1)))

/-- Sampler::get_2d_array for HaltonSampler.  none models the panics: the
failed size assertion, the failed current_pixel_sample_index <
samples_per_pixel assertion, the out-of-bounds size lookup, and the
out-of-range slice (a negative sample index wraps in the usize cast and
the slice panics). -/
def HaltonSampler.get_2d_array (s : HaltonSampler) (n : Int) :
    Option (HaltonSampler × List Point2f) :=
  if s.array_2d_offset = s.sample_array_2d.length then some (s, [])
  else
    match s.samples_2d_array_sizes.get? s.array_2d_offset,
        s.sample_array_2d.get? s.array_2d_offset with
    | some sz, some buf =>
      if sz = n ∧ 0 ≤ s.current_pixel_sample_index ∧
          s.current_pixel_sample_index < s.samples_per_pixel ∧
          (s.current_pixel_sample_index * n).toNat + n.toNat ≤ buf.length then
        some ({ s with array_2d_offset := s.array_2d_offset + 1 },
          (buf.drop (s.current_pixel_sample_index * n).toNat).take n.toNat)
      else none
    | _, _ => none

/-- Sampler::start_next_sample for HaltonSampler: reset the dimension
cursor, recompute interval_sample_index for the next sample number
(current_pixel_sample_index as u64 + 1), reset both array offsets,
advance the sample counter and report whether it is still below
samples_per_pixel. -/
def HaltonSampler.start_next_sample (s : HaltonSampler) : HaltonSampler × Bool :=
  let r := s.get_index_for_sample (s.current_pixel_sample_index.toNat + 1)
  let s1 : HaltonSampler :=
    { r.1 with
      dimension := 0
      interval_sample_index := r.2
      array_1d_offset := 0
      array_2d_offset := 0
      current_pixel_sample_index := s.current_pixel_sample_index + 1 }
  (s1, decide (s1.current_pixel_sample_index < s1.samples_per_pixel))

/-- Write loop of the array prefill in start_pixel: cell j of the buffer
is overwritten for j < n_samples.  In every state reachable through
request_2d_array / request_1d_array the buffer length equals the written
count; a larger count would panic in the source. -/
def fill_cells {α : Type} (buf : List α) (n_samples : Nat) (f : Nat → α) : List α :=
  buf.mapIdx (fun j v => if j < n_samples then f j else v)

/-- Sampler::start_pixel for HaltonSampler: reset the per-pixel cursor,
install the Halton offset of the pixel (get_index_for_sample 0), compute
array_end_dim, then eagerly fill every registered 1D and 2D array
request for every sample of the pixel, each cell drawn from
sample_dimension at its reserved dimension slot.  After the first
get_index_for_sample the cache is keyed by p, so the per-cell
get_index_for_sample calls leave the state unchanged and only their
value is used.  The final assert of the source (array_end_dim == dim)
holds whenever the size lists and the buffers have equal lengths. -/
def HaltonSampler.start_pixel (ctx : LowDiscrepancyCtx) (s : HaltonSampler)
    (p : Point2i) : HaltonSampler :=
  let s0 : HaltonSampler :=
    { s with
      current_pixel := p
      current_pixel_sample_index := 0
      array_1d_offset := 0
      array_2d_offset := 0
      dimension := 0 }
  let r := s0.get_index_for_sample 0
  let s1 : HaltonSampler :=
    { r.1 with
      interval_sample_index := r.2
      array_end_dim :=
        r.1.array_start_dim + (r.1.sample_array_1d.length : Int) +
          2 * (r.1.sample_array_2d.length : Int) }
  let s2 : HaltonSampler :=
    { s1 with
      sample_array_1d :=
        s1.sample_array_1d.mapIdx (fun i buf =>
          match s1.samples_1d_array_sizes.get? i with
          | none => buf
          | some sz =>
            fill_cells buf (sz * s1.samples_per_pixel).toNat (fun j =>
              HaltonSampler.sample_dimension_val ctx s1 (s1.get_index_for_sample j).2
                (s1.array_start_dim + (i : Int)))) }
  let dim0 : Int := s2.array_start_dim + (s2.samples_1d_array_sizes.length : Int)
  { s2 with
    sample_array_2d :=
      s2.sample_array_2d.mapIdx (fun i buf =>
        match s2.samples_2d_array_sizes.get? i with
        | none => buf
        | some sz =>
          fill_cells buf (sz * s2.samples_per_pixel).toNat (fun j =>
            { x := HaltonSampler.sample_dimension_val ctx s2 (s2.get_index_for_sample j).2
                (dim0 + 2 * (i : Int))
              y := HaltonSampler.sample_dimension_val ctx s2 (s2.get_index_for_sample j).2
                (dim0 + 2 * (i : Int) + 1) })) }

/-- impl Clone for HaltonSampler: read both lock cells and rebuild every
field; the element-wise cloned-and-collected vectors are equal vectors
(deep copying is a memory notion with no observable counterpart here). -/
def HaltonSampler.clone (s : HaltonSampler) : HaltonSampler :=
  { samples_per_pixel := s.samples_per_pixel
    base_scales := s.base_scales
    base_exponents := s.base_exponents
    sample_stride := s.sample_stride
    mult_inverse := s.mult_inverse
    pixel_for_offset := s.pixel_for_offset
    offset_for_current_pixel := s.offset_for_current_pixel
    sample_at_pixel_center := s.sample_at_pixel_center
    dimension := s.dimension
    interval_sample_index := s.interval_sample_index
    array_start_dim := s.array_start_dim
    array_end_dim := s.array_end_dim
    current_pixel := s.current_pixel
    current_pixel_sample_index := s.current_pixel_sample_index
    samples_1d_array_sizes := s.samples_1d_array_sizes
    samples_2d_array_sizes := s.samples_2d_array_sizes
    sample_array_1d := s.sample_array_1d
    sample_array_2d := s.sample_array_2d
    array_1d_offset := s.array_1d_offset
    array_2d_offset := s.array_2d_offset }

/-- One public sampler operation, as consumed by the rendering loop. -/
inductive SamplerOp where
  | startPixel (p : Point2i)
  | get1d
  | get2d
  | get2dArray (n : Int)
  | startNextSample
deriving DecidableEq, Repr

/-- Observable result of one sampler operation.  The array accessor
reports none when the source would panic (the get_2d_array assertions). -/
inductive SampleValue where
  | vUnit
  | v1 (x : Option ℚ)
  | v2 (x y : Option ℚ)
  | vArr (xs : Option (List Point2f))
  | vBool (b : Bool)
deriving DecidableEq, Repr

/-- Apply one operation: next state plus observable value.  A failed
get_2d_array leaves the state unchanged (the source aborts there). -/
def applyOp (ctx : LowDiscrepancyCtx) (s : HaltonSampler) :
    SamplerOp → HaltonSampler × SampleValue
  | SamplerOp.startPixel p => (s.start_pixel ctx p, SampleValue.vUnit)
  | SamplerOp.get1d =>
    let r := s.get_1d ctx
    (r.1, SampleValue.v1 r.2)
  | SamplerOp.get2d =>
    let r := s.get_2d ctx
    (r.1, SampleValue.v2 r.2.1 r.2.2)
  | SamplerOp.get2dArray n =>
    match s.get_2d_array n with
    | none => (s, SampleValue.vArr none)
    | some (s1, l) => (s1, SampleValue.vArr (some l))
  | SamplerOp.startNextSample =>
    let r := s.start_next_sample
    (r.1, SampleValue.vBool r.2)

/-- Run a sequence of operations, collecting the observable values. -/
def runOps (ctx : LowDiscrepancyCtx) : List SamplerOp → HaltonSampler →
    HaltonSampler × List SampleValue
  | [], s => (s, [])
  | op :: ops, s =>
    let r := applyOp ctx s op
    let rest := runOps ctx ops r.1
    (rest.1, r.2 :: rest.2)

/-- A tiny concrete table context for witnesses: three primes 2, 3, 5,
their prefix sums 0, 2, 5, and identity-shaped digit permutations laid
out per slice. -/
def ctxW : LowDiscrepancyCtx :=
  { primeTableSize := 3
    primes := fun i => if i = 0 then 2 else if i = 1 then 3 else 5
    primeSums := fun i => if i = 0 then 0 else if i = 1 then 2 else 5
    permTable := fun n =>
      if n < 2 then n else if n < 5 then n - 2 else if n < 10 then n - 5 else 0 }

/-- A concrete sampler state for witnesses: the configuration a 10 x 7
sampling region produces (scales 16 and 9, stride 144), cache keyed by
the origin with the matching offset 0, cursor at pixel (1, 2). -/
def sW : HaltonSampler :=
  { samples_per_pixel := 2
    base_scales := { x := 16, y := 9 }
    base_exponents := { x := 4, y := 2 }
    sample_stride := 144
    mult_inverse := (7, 4)
    pixel_for_offset := { x := 0, y := 0 }
    offset_for_current_pixel := 0
    sample_at_pixel_center := false
    dimension := 0
    interval_sample_index := 0
    array_start_dim := 5
    array_end_dim := 0
    current_pixel := { x := 1, y := 2 }
    current_pixel_sample_index := 0
    samples_1d_array_sizes := []
    samples_2d_array_sizes := []
    sample_array_1d := []
    sample_array_2d := []
    array_1d_offset := 0
    array_2d_offset := 0 }

/-! Helper lemmas. -/

lemma scale_loop_invariant :
    ∀ base bound scale exp : Nat, 1 ≤ scale → 2 ≤ base →
      bound ≤ (scale_loop base bound scale exp).1 ∧
      ∃ k : Nat, (scale_loop base bound scale exp).2 = exp + k ∧
        (scale_loop base bound scale exp).1 = scale * base ^ k ∧
        (k = 0 ∨ scale * base ^ (k - 1) < bound) := by
  intro base bound scale exp
  induction scale, exp using scale_loop.induct base bound with
  | case1 scale exp h ih =>
    intro hs hb
    have hs2 : 1 ≤ scale * base := le_trans hs (Nat.le_mul_of_pos_right scale (by omega))
    obtain ⟨h1, k, hk1, hk2, hk3⟩ := ih hs2 hb
    rw [scale_loop.eq_def, dif_pos h]
    refine ⟨h1, k + 1, by omega, ?_, ?_⟩
    · rw [hk2, pow_succ]; ring
    · right
      rcases hk3 with hk0 | hlt
      · subst hk0
        simpa using h.2.2
      · rcases Nat.eq_zero_or_pos k with hk0 | hkpos
        · subst hk0; simpa using h.2.2
        · have : scale * base * base ^ (k - 1) = scale * base ^ k := by
            have hk : k - 1 + 1 = k := by omega
            calc scale * base * base ^ (k - 1) = scale * (base ^ (k - 1) * base) := by ring
            _ = scale * base ^ (k - 1 + 1) := by rw [pow_succ]
            _ = scale * base ^ k := by rw [hk]
          simpa [this] using hlt
  | case2 scale exp h =>
    intro hs hb
    rw [scale_loop.eq_def, dif_neg h]
    have hbd : bound ≤ scale := by
      rcases Nat.lt_or_ge scale bound with hlt | hge
      · exact absurd ⟨hs, hb, hlt⟩ h
      · exact hge
    exact ⟨hbd, 0, by omega, by simp, Or.inl rfl⟩

lemma extended_gcd_bezout :
    ∀ a b : Nat, (a : Int) * (extended_gcd a b).1 + (b : Int) * (extended_gcd a b).2 =
      (Nat.gcd a b : Int) := by
  intro a b
  induction a, b using extended_gcd.induct with
  | case1 a => simp [extended_gcd]
  | case2 a b hb ih =>
    rw [extended_gcd.eq_def, if_neg hb]
    have hg : Nat.gcd a b = Nat.gcd b (a % b) := by
      rw [Nat.gcd_comm a b, Nat.gcd_rec b a, Nat.gcd_comm (a % b) b]
    have hmod : ((a % b : Nat) : Int) = (a : Int) - (b : Int) * ((a / b : Nat) : Int) := by
      have := Nat.mod_add_div a b
      omega
    have step :
        (a : Int) * (extended_gcd b (a % b)).2 +
            (b : Int) * ((extended_gcd b (a % b)).1 -
              ((a / b : Nat) : Int) * (extended_gcd b (a % b)).2) =
          (b : Int) * (extended_gcd b (a % b)).1 +
            ((a % b : Nat) : Int) * (extended_gcd b (a % b)).2 := by
      rw [hmod]; ring
    simpa [hg] using step.trans ih

lemma mod_t_add_multiple (x n : Int) : ∃ k : Int, mod_t x n = x + n * k := by
  by_cases h : x - x.tdiv n * n < 0
  · exact ⟨1 - x.tdiv n, by simp only [mod_t, if_pos h]; ring⟩
  · exact ⟨-(x.tdiv n), by simp only [mod_t, if_neg h]; ring⟩

lemma mult_inverse_identity (a n : Nat) (hco : Nat.gcd a n = 1) (hn : 1 < n) :
    ((a : Int) * multiplicative_inverse a n) % (n : Int) = 1 := by
  obtain ⟨k, hk⟩ := mod_t_add_multiple (extended_gcd a n).1 (n : Int)
  have hbez := extended_gcd_bezout a n
  rw [hco] at hbez
  unfold multiplicative_inverse
  rw [hk]
  have hsplit : (a : Int) * ((extended_gcd a n).1 + (n : Int) * k) =
      1 + (n : Int) * ((a : Int) * k - (extended_gcd a n).2) := by
    linear_combination hbez
  rw [hsplit, Int.add_mul_emod_self_left]
  exact Int.emod_eq_of_lt (by omega) (by exact_mod_cast hn)

lemma scale_loop_smallest (base bdN : Nat) (hb : 2 ≤ base) :
    bdN ≤ (scale_loop base bdN 1 0).1 ∧
    (scale_loop base bdN 1 0).1 = base ^ (scale_loop base bdN 1 0).2 ∧
    ∀ m : Nat, bdN ≤ base ^ m → (scale_loop base bdN 1 0).1 ≤ base ^ m := by
  obtain ⟨h1, k, hk1, hk2, hk3⟩ := scale_loop_invariant base bdN 1 0 (le_refl 1) hb
  have hk1' : (scale_loop base bdN 1 0).2 = k := by omega
  have hk2' : (scale_loop base bdN 1 0).1 = base ^ k := by simpa using hk2
  refine ⟨h1, by rw [hk1', hk2'], ?_⟩
  intro m hm
  rcases hk3 with hk0 | hlt
  · subst hk0
    simpa [hk2'] using Nat.one_le_pow m base (by omega)
  · have hpow : base ^ (k - 1) < base ^ m := by
      have : base ^ (k - 1) < bdN := by simpa using hlt
      omega
    have hkm : k - 1 < m := (Nat.pow_lt_pow_iff_right (by omega : 1 < base)).mp hpow
    rcases Nat.eq_zero_or_pos k with hk0 | hkpos
    · subst hk0; simpa [hk2'] using Nat.one_le_pow m base (by omega)
    · have : k ≤ m := by omega
      rw [hk2']
      exact Nat.pow_le_pow_right (by omega) this

/-- C2 (amended): for every construction input, each Chinese-Remainder
inverse identity holds on the axes whose base scale exceeds 1:
(base_scales[1] * mult_inverse[0]) mod base_scales[0] = 1 whenever
1 < base_scales[0], and symmetrically; when a scale is 1 the left side is
a residue modulo 1, hence 0. -/
theorem new_mult_inverse_identity (spp : Int) (b : Bounds2i) (c : Bool) :
    (1 < (HaltonSampler.new spp b c).base_scales.x →
      ((HaltonSampler.new spp b c).base_scales.y * (HaltonSampler.new spp b c).mult_inverse.1) %
        (HaltonSampler.new spp b c).base_scales.x = 1) ∧
    (1 < (HaltonSampler.new spp b c).base_scales.y →
      ((HaltonSampler.new spp b c).base_scales.x * (HaltonSampler.new spp b c).mult_inverse.2) %
        (HaltonSampler.new spp b c).base_scales.y = 1) := by
  have h0 := scale_loop_smallest 2
    (min (b.p_max.x - b.p_min.x) K_MAX_RESOLUTION).toNat (by norm_num)
  have h1 := scale_loop_smallest 3
    (min (b.p_max.y - b.p_min.y) K_MAX_RESOLUTION).toNat (by norm_num)
  simp only [HaltonSampler.new]
  constructor
  · intro hlt
    apply mult_inverse_identity
    · rw [h0.2.1, h1.2.1]
      exact Nat.Coprime.pow _ _ (by decide)
    · exact_mod_cast hlt
  · intro hlt
    apply mult_inverse_identity
    · rw [h0.2.1, h1.2.1]
      exact Nat.Coprime.pow _ _ (by decide)
    · exact_mod_cast hlt

/-- C2 witness: on a 2 x 2 sampling region the scales are (2, 3) and both
inverse identities hold. -/
theorem new_mult_inverse_identity_witness :
    1 < (HaltonSampler.new 16 ⟨⟨0, 0⟩, ⟨2, 2⟩⟩ false).base_scales.x ∧
    1 < (HaltonSampler.new 16 ⟨⟨0, 0⟩, ⟨2, 2⟩⟩ false).base_scales.y ∧
    ((HaltonSampler.new 16 ⟨⟨0, 0⟩, ⟨2, 2⟩⟩ false).base_scales.y *
        (HaltonSampler.new 16 ⟨⟨0, 0⟩, ⟨2, 2⟩⟩ false).mult_inverse.1) %
      (HaltonSampler.new 16 ⟨⟨0, 0⟩, ⟨2, 2⟩⟩ false).base_scales.x = 1 ∧
    ((HaltonSampler.new 16 ⟨⟨0, 0⟩, ⟨2, 2⟩⟩ false).base_scales.x *
        (HaltonSampler.new 16 ⟨⟨0, 0⟩, ⟨2, 2⟩⟩ false).mult_inverse.2) %
      (HaltonSampler.new 16 ⟨⟨0, 0⟩, ⟨2, 2⟩⟩ false).base_scales.y = 1 := by
  have hx : (HaltonSampler.new 16 ⟨⟨0, 0⟩, ⟨2, 2⟩⟩ false).base_scales.x = 2 := by
    show ((scale_loop 2 (min ((2 : Int) - 0) K_MAX_RESOLUTION).toNat 1 0).1 : Int) = 2
    rw [scale_loop.eq_def, dif_pos (by decide), scale_loop.eq_def, dif_neg (by decide)]
    decide
  have hy : (HaltonSampler.new 16 ⟨⟨0, 0⟩, ⟨2, 2⟩⟩ false).base_scales.y = 3 := by
    show ((scale_loop 3 (min ((2 : Int) - 0) K_MAX_RESOLUTION).toNat 1 0).1 : Int) = 3
    rw [scale_loop.eq_def, dif_pos (by decide), scale_loop.eq_def, dif_neg (by decide)]
    decide
  have hx1 : 1 < (HaltonSampler.new 16 ⟨⟨0, 0⟩, ⟨2, 2⟩⟩ false).base_scales.x := by
    rw [hx]; decide
  have hy1 : 1 < (HaltonSampler.new 16 ⟨⟨0, 0⟩, ⟨2, 2⟩⟩ false).base_scales.y := by
    rw [hy]; decide
  exact ⟨hx1, hy1, (new_mult_inverse_identity 16 ⟨⟨0, 0⟩, ⟨2, 2⟩⟩ false).1 hx1,
    (new_mult_inverse_identity 16 ⟨⟨0, 0⟩, ⟨2, 2⟩⟩ false).2 hy1⟩

/-- C2 counterexample: on a 1 x 1 sampling region both base scales are 1
and both identities fail, the residues modulo 1 being 0. -/
theorem new_mult_inverse_identity_cex :
    ¬ (((HaltonSampler.new 16 ⟨⟨0, 0⟩, ⟨1, 1⟩⟩ false).base_scales.y *
          (HaltonSampler.new 16 ⟨⟨0, 0⟩, ⟨1, 1⟩⟩ false).mult_inverse.1) %
        (HaltonSampler.new 16 ⟨⟨0, 0⟩, ⟨1, 1⟩⟩ false).base_scales.x = 1 ∧
      ((HaltonSampler.new 16 ⟨⟨0, 0⟩, ⟨1, 1⟩⟩ false).base_scales.x *
          (HaltonSampler.new 16 ⟨⟨0, 0⟩, ⟨1, 1⟩⟩ false).mult_inverse.2) %
        (HaltonSampler.new 16 ⟨⟨0, 0⟩, ⟨1, 1⟩⟩ false).base_scales.y = 1) := by
  intro h
  have h1 := h.1
  have hx : (HaltonSampler.new 16 ⟨⟨0, 0⟩, ⟨1, 1⟩⟩ false).base_scales.x = 1 := by
    show ((scale_loop 2 (min ((1 : Int) - 0) K_MAX_RESOLUTION).toNat 1 0).1 : Int) = 1
    rw [scale_loop.eq_def, dif_neg (by decide)]
    decide
  rw [hx, Int.emod_one] at h1
  exact absurd h1 (by decide)

/-- C3: HaltonSampler::new sets base_scales[0] (base 2) and base_scales[1]
(base 3) to the smallest power of the base at least the pixel extent of
sample_bounds on that axis with the extent capped at the maximum
resolution 128, base_exponents to the matching exponents, and
sample_stride to the product of the two scales. -/
theorem new_base_scales_smallest_pow (spp : Int) (b : Bounds2i) (c : Bool) :
    ((HaltonSampler.new spp b c).base_scales.x =
        (2 : Int) ^ (HaltonSampler.new spp b c).base_exponents.x.toNat ∧
      min (b.p_max.x - b.p_min.x) K_MAX_RESOLUTION ≤
        (HaltonSampler.new spp b c).base_scales.x ∧
      ∀ m : Nat, min (b.p_max.x - b.p_min.x) K_MAX_RESOLUTION ≤ (2 : Int) ^ m →
        (HaltonSampler.new spp b c).base_scales.x ≤ (2 : Int) ^ m) ∧
    ((HaltonSampler.new spp b c).base_scales.y =
        (3 : Int) ^ (HaltonSampler.new spp b c).base_exponents.y.toNat ∧
      min (b.p_max.y - b.p_min.y) K_MAX_RESOLUTION ≤
        (HaltonSampler.new spp b c).base_scales.y ∧
      ∀ m : Nat, min (b.p_max.y - b.p_min.y) K_MAX_RESOLUTION ≤ (3 : Int) ^ m →
        (HaltonSampler.new spp b c).base_scales.y ≤ (3 : Int) ^ m) ∧
    ((HaltonSampler.new spp b c).sample_stride : Int) =
      (HaltonSampler.new spp b c).base_scales.x *
        (HaltonSampler.new spp b c).base_scales.y := by
  have h0 := scale_loop_smallest 2
    (min (b.p_max.x - b.p_min.x) K_MAX_RESOLUTION).toNat (by norm_num)
  have h1 := scale_loop_smallest 3
    (min (b.p_max.y - b.p_min.y) K_MAX_RESOLUTION).toNat (by norm_num)
  simp only [HaltonSampler.new]
  refine ⟨⟨?_, ?_, ?_⟩, ⟨?_, ?_, ?_⟩, ?_⟩
  · rw [Int.toNat_natCast]
    exact_mod_cast h0.2.1
  · calc min (b.p_max.x - b.p_min.x) K_MAX_RESOLUTION ≤
        ((min (b.p_max.x - b.p_min.x) K_MAX_RESOLUTION).toNat : Int) := Int.self_le_toNat _
    _ ≤ _ := by exact_mod_cast h0.1
  · intro m hm
    have hmN : (min (b.p_max.x - b.p_min.x) K_MAX_RESOLUTION).toNat ≤ 2 ^ m := by
      rw [Int.toNat_le]
      exact_mod_cast hm
    exact_mod_cast h0.2.2 m hmN
  · rw [Int.toNat_natCast]
    exact_mod_cast h1.2.1
  · calc min (b.p_max.y - b.p_min.y) K_MAX_RESOLUTION ≤
        ((min (b.p_max.y - b.p_min.y) K_MAX_RESOLUTION).toNat : Int) := Int.self_le_toNat _
    _ ≤ _ := by exact_mod_cast h1.1
  · intro m hm
    have hmN : (min (b.p_max.y - b.p_min.y) K_MAX_RESOLUTION).toNat ≤ 3 ^ m := by
      rw [Int.toNat_le]
      exact_mod_cast hm
    exact_mod_cast h1.2.2 m hmN
  · push_cast
    ring

/-- C3 witness: on a 10 x 7 region the minimality instance at exponent 4
bounds the base-2 scale by 16. -/
theorem new_base_scales_smallest_pow_witness :
    min (((10 : Int) - 0)) K_MAX_RESOLUTION ≤ (2 : Int) ^ 4 ∧
    (HaltonSampler.new 16 ⟨⟨0, 0⟩, ⟨10, 7⟩⟩ false).base_scales.x ≤ (2 : Int) ^ 4 := by
  have hm : min (((10 : Int) - 0)) K_MAX_RESOLUTION ≤ (2 : Int) ^ 4 := by decide
  exact ⟨hm, (new_base_scales_smallest_pow 16 ⟨⟨0, 0⟩, ⟨10, 7⟩⟩ false).1.2.2 4 hm⟩

/-- C1: get_index_for_sample returns off(current_pixel) + n * stride,
where off is the formula of the claim (haltonOffsetSpec); when the cached
pixel already equals the current pixel the cached offset is returned
with the state untouched, and after the call the cache holds the pair
(current_pixel, off(current_pixel)).  The hypotheses say the stride is
at least 1 (every constructed sampler satisfies this, the scales being
positive) and that the cache is consistent, which construction
establishes (the fresh cache pairs the origin with offset 0) and which
this very theorem shows every call preserves. -/
theorem get_index_for_sample_spec (s : HaltonSampler) (n : Nat)
    (h1 : 1 ≤ s.sample_stride)
    (hc : s.offset_for_current_pixel = haltonOffsetSpec s s.pixel_for_offset) :
    (s.get_index_for_sample n).2 =
      haltonOffsetSpec s s.current_pixel + n * s.sample_stride ∧
    (s.get_index_for_sample n).1.pixel_for_offset = s.current_pixel ∧
    (s.get_index_for_sample n).1.offset_for_current_pixel =
      haltonOffsetSpec s s.current_pixel ∧
    (s.pixel_for_offset = s.current_pixel →
      (s.get_index_for_sample n).2 = s.offset_for_current_pixel + n * s.sample_stride ∧
      (s.get_index_for_sample n).1 = s) := by
  by_cases hp : s.current_pixel = s.pixel_for_offset
  · simp [HaltonSampler.get_index_for_sample, hp, hc]
  · by_cases hstr : 1 < s.sample_stride
    · refine ⟨?_, ?_, ?_, fun h => absurd h.symm hp⟩ <;>
        simp [HaltonSampler.get_index_for_sample, hp, hstr, haltonOffsetSpec]
    · have hone : s.sample_stride = 1 := by omega
      refine ⟨?_, ?_, ?_, fun h => absurd h.symm hp⟩ <;>
        simp [HaltonSampler.get_index_for_sample, hp, hstr, haltonOffsetSpec, hone,
          Nat.mod_one]

/-- C1 witness: the concrete sampler sW (stride 144, cache consistent at
the origin) at sample number 3. -/
theorem get_index_for_sample_spec_witness :
    1 ≤ sW.sample_stride ∧
    sW.offset_for_current_pixel = haltonOffsetSpec sW sW.pixel_for_offset ∧
    ((sW.get_index_for_sample 3).2 =
        haltonOffsetSpec sW sW.current_pixel + 3 * sW.sample_stride ∧
      (sW.get_index_for_sample 3).1.pixel_for_offset = sW.current_pixel ∧
      (sW.get_index_for_sample 3).1.offset_for_current_pixel =
        haltonOffsetSpec sW sW.current_pixel ∧
      (sW.pixel_for_offset = sW.current_pixel →
        (sW.get_index_for_sample 3).2 =
          sW.offset_for_current_pixel + 3 * sW.sample_stride ∧
        (sW.get_index_for_sample 3).1 = sW)) :=
  ⟨by decide, by decide, get_index_for_sample_spec sW 3 (by decide) (by decide)⟩

/-- C10: when the sampling region extends at most one pixel per axis the
stride is 1, the per-pixel offset is 0 for every pixel, and
get_index_for_sample(n) = n - the offset computation is skipped for
stride at most 1. -/
theorem get_index_for_sample_unit_stride (spp : Int) (b : Bounds2i) (c : Bool)
    (p : Point2i) (n : Nat)
    (hx : b.p_max.x - b.p_min.x ≤ 1) (hy : b.p_max.y - b.p_min.y ≤ 1) :
    ({ HaltonSampler.new spp b c with current_pixel := p } :
        HaltonSampler).sample_stride = 1 ∧
    (({ HaltonSampler.new spp b c with current_pixel := p } :
        HaltonSampler).get_index_for_sample n).2 = n ∧
    (({ HaltonSampler.new spp b c with current_pixel := p } :
        HaltonSampler).get_index_for_sample n).1.offset_for_current_pixel = 0 := by
  have hbx : (min (b.p_max.x - b.p_min.x) K_MAX_RESOLUTION).toNat ≤ 1 := by
    simp only [K_MAX_RESOLUTION]
    omega
  have hby : (min (b.p_max.y - b.p_min.y) K_MAX_RESOLUTION).toNat ≤ 1 := by
    simp only [K_MAX_RESOLUTION]
    omega
  have e0 : scale_loop 2 (min (b.p_max.x - b.p_min.x) K_MAX_RESOLUTION).toNat 1 0 = (1, 0) := by
    rw [scale_loop.eq_def, dif_neg (by omega)]
  have e1 : scale_loop 3 (min (b.p_max.y - b.p_min.y) K_MAX_RESOLUTION).toNat 1 0 = (1, 0) := by
    rw [scale_loop.eq_def, dif_neg (by omega)]
  have hstr : ({ HaltonSampler.new spp b c with current_pixel := p } :
      HaltonSampler).sample_stride = 1 := by
    simp [HaltonSampler.new, e0, e1]
  refine ⟨hstr, ?_, ?_⟩ <;>
    · simp only [HaltonSampler.get_index_for_sample, hstr]
      split <;> simp [HaltonSampler.new, e0, e1]

/-- C10 witness: a one-pixel region at (3, 4), queried at pixel (9, 9)
and sample number 7. -/
theorem get_index_for_sample_unit_stride_witness :
    ((4 : Int) - 3 ≤ 1) ∧ ((5 : Int) - 4 ≤ 1) ∧
    ((({ HaltonSampler.new 1 ⟨⟨3, 4⟩, ⟨4, 5⟩⟩ false with current_pixel := ⟨9, 9⟩ } :
        HaltonSampler).get_index_for_sample 7).2 = 7) :=
  ⟨by decide, by decide,
    (get_index_for_sample_unit_stride 1 ⟨⟨3, 4⟩, ⟨4, 5⟩⟩ false ⟨9, 9⟩ 7
      (by decide) (by decide)).2.1⟩

lemma srib_zero_ne_one (b : Nat) (perm : Nat → Nat) (hb : 2 ≤ b)
    (hne : perm 0 ≠ perm 1) :
    scrambled_radical_inverse_base b perm 0 ≠ scrambled_radical_inverse_base b perm 1 := by
  have h0 : scrambled_radical_inverse_base b perm 0 = (perm 0 : ℚ) / ((b : ℚ) - 1) := by
    rw [scrambled_radical_inverse_base.eq_def, dif_neg (by simp), if_pos hb]
  have hb1 : 1 < b := by omega
  have h1 : scrambled_radical_inverse_base b perm 1 =
      (perm 1 : ℚ) / (b : ℚ) + ((perm 0 : ℚ) / ((b : ℚ) - 1)) / (b : ℚ) := by
    rw [scrambled_radical_inverse_base.eq_def, dif_pos ⟨hb, one_ne_zero⟩,
      Nat.mod_eq_of_lt hb1, Nat.div_eq_of_lt hb1, h0]
  rw [h0, h1]
  intro heq
  have hB : (2 : ℚ) ≤ (b : ℚ) := by exact_mod_cast hb
  have hb0 : (b : ℚ) ≠ 0 := by linarith
  have hbm1 : (b : ℚ) - 1 ≠ 0 := by
    intro h
    have : (b : ℚ) = 1 := by linarith
    linarith
  have hnz : (b : ℚ) * (((b : ℚ) - 1) * ((b : ℚ) - 1)) ≠ 0 :=
    mul_ne_zero hb0 (mul_ne_zero hbm1 hbm1)
  have hval : ((perm 0 : Nat) : ℚ) = ((perm 1 : Nat) : ℚ) := by
    field_simp at heq
    exact mul_left_cancel₀ hnz (by linear_combination heq)
  exact hne (by exact_mod_cast hval)

/-- C4: get_1d skips the cursor to array_end_dim when it lies inside the
reserved window [array_start_dim, array_end_dim) and then returns
sample_dimension(interval_sample_index, cursor), advancing by one;
get_2d does the same when either of the two next dimensions lies in the
window, returning (x, y) from the cursor and cursor + 1 and advancing by
two; and the dimension any scalar accessor actually draws from is never
inside the window.  The source computes y before x; only the values are
modelled here. -/
theorem scalar_accessors_avoid_array_window (ctx : LowDiscrepancyCtx) (s : HaltonSampler) :
    (s.array_start_dim ≤ s.dimension ∧ s.dimension < s.array_end_dim →
      s.get_1d ctx = ({ s with dimension := s.array_end_dim + 1 },
        s.sample_dimension ctx s.interval_sample_index s.array_end_dim)) ∧
    ((s.array_start_dim ≤ s.dimension ∧ s.dimension < s.array_end_dim) ∨
        (s.array_start_dim ≤ s.dimension + 1 ∧ s.dimension + 1 < s.array_end_dim) →
      s.get_2d ctx = ({ s with dimension := s.array_end_dim + 2 },
        (s.sample_dimension ctx s.interval_sample_index s.array_end_dim,
          s.sample_dimension ctx s.interval_sample_index (s.array_end_dim + 1)))) ∧
    (∃ d : Int, ¬(s.array_start_dim ≤ d ∧ d < s.array_end_dim) ∧
      (s.get_1d ctx).2 = s.sample_dimension ctx s.interval_sample_index d ∧
      (s.get_1d ctx).1 = { s with dimension := d + 1 }) ∧
    (∃ d : Int, ¬(s.array_start_dim ≤ d ∧ d < s.array_end_dim) ∧
      ¬(s.array_start_dim ≤ d + 1 ∧ d + 1 < s.array_end_dim) ∧
      (s.get_2d ctx).2 = (s.sample_dimension ctx s.interval_sample_index d,
        s.sample_dimension ctx s.interval_sample_index (d + 1)) ∧
      (s.get_2d ctx).1 = { s with dimension := d + 2 }) := by
  refine ⟨?_, ?_, ?_, ?_⟩
  · intro h
    simp [HaltonSampler.get_1d, h]
  · intro h
    have hc : s.array_start_dim ≤ s.dimension + 1 ∧ s.dimension < s.array_end_dim := by
      rcases h with ⟨h1, h2⟩ | ⟨h1, h2⟩ <;> constructor <;> omega
    simp [HaltonSampler.get_2d, hc]
  · by_cases h : s.array_start_dim ≤ s.dimension ∧ s.dimension < s.array_end_dim
    · exact ⟨s.array_end_dim, by omega, by simp [HaltonSampler.get_1d, h]⟩
    · exact ⟨s.dimension, h, by simp [HaltonSampler.get_1d, h]⟩
  · by_cases h : s.array_start_dim ≤ s.dimension + 1 ∧ s.dimension < s.array_end_dim
    · exact ⟨s.array_end_dim, by omega, by omega, by simp [HaltonSampler.get_2d, h]⟩
    · refine ⟨s.dimension, ?_, ?_, by simp [HaltonSampler.get_2d, h]⟩ <;> omega

/-- C4 witness: with the window [5, 9) and the cursor at 6, get_1d skips
to dimension 9. -/
theorem scalar_accessors_avoid_array_window_witness :
    (({ sW with dimension := 6, array_end_dim := 9 } : HaltonSampler).array_start_dim ≤ 6 ∧
      (6 : Int) < 9) ∧
    HaltonSampler.get_1d ctxW { sW with dimension := 6, array_end_dim := 9 } =
      ({ sW with dimension := 10, array_end_dim := 9 },
        HaltonSampler.sample_dimension ctxW { sW with dimension := 6, array_end_dim := 9 }
          ({ sW with dimension := 6, array_end_dim := 9 } :
            HaltonSampler).interval_sample_index 9) := by
  refine ⟨by decide, ?_⟩
  have h := (scalar_accessors_avoid_array_window ctxW
    { sW with dimension := 6, array_end_dim := 9 }).1 (by decide)
  exact h

/-- C7: with sample_at_pixel_center set, dimensions 0 and 1 of
sample_dimension are exactly one half for every index, every dimension
at least 2 gives the same scrambled radical inverse as with the flag
clear, and (for an in-table dimension whose digit permutation moves some
digit, as every randomized permutation slice does) that value still
varies across sample indices. -/
theorem sample_dimension_pixel_center (ctx : LowDiscrepancyCtx) (s : HaltonSampler)
    (index : Nat) (dim : Int) (hflag : s.sample_at_pixel_center = true) :
    (dim = 0 ∨ dim = 1 → s.sample_dimension ctx index dim = some (1 / 2 : ℚ)) ∧
    (2 ≤ dim → s.sample_dimension ctx index dim =
      HaltonSampler.sample_dimension ctx { s with sample_at_pixel_center := false }
        index dim) ∧
    (2 ≤ dim → dim < (ctx.primeTableSize : Int) → 2 ≤ ctx.primes dim.toNat →
      ctx.permTable (ctx.primeSums dim.toNat) ≠
        ctx.permTable (ctx.primeSums dim.toNat + 1) →
      ∃ i j : Nat, s.sample_dimension ctx i dim ≠ s.sample_dimension ctx j dim) := by
  refine ⟨?_, ?_, ?_⟩
  · intro h
    simp [HaltonSampler.sample_dimension, hflag, h]
  · intro h2
    have h0 : dim ≠ 0 := by omega
    have h1 : dim ≠ 1 := by omega
    simp [HaltonSampler.sample_dimension, hflag, h0, h1]
  · intro h2 hlt hprime hperm
    refine ⟨0, 1, ?_⟩
    have h0 : dim ≠ 0 := by omega
    have h1 : dim ≠ 1 := by omega
    have hpd : HaltonSampler.permutation_for_dimension ctx dim =
        some (fun j => ctx.permTable (ctx.primeSums dim.toNat + j)) := by
      simp only [HaltonSampler.permutation_for_dimension]
      rw [if_pos (show 0 ≤ dim ∧ dim < (ctx.primeTableSize : Int) from ⟨by omega, hlt⟩)]
    have hv : ∀ i : Nat, s.sample_dimension ctx i dim =
        some (scrambled_radical_inverse_base (ctx.primes dim.toNat)
          (fun j => ctx.permTable (ctx.primeSums dim.toNat + j)) i) := by
      intro i
      simp [HaltonSampler.sample_dimension, h0, h1, hpd]
    rw [hv 0, hv 1]
    simp only [ne_eq, Option.some.injEq]
    exact fun heq => srib_zero_ne_one (ctx.primes dim.toNat)
      (fun j => ctx.permTable (ctx.primeSums dim.toNat + j)) hprime
      (by simpa using hperm) heq

/-- C7 witness: with the concrete table ctxW and the pixel-center flag
set, dimension 0 returns one half and dimension 2 still varies across
sample indices. -/
theorem sample_dimension_pixel_center_witness :
    HaltonSampler.sample_dimension ctxW
      { sW with sample_at_pixel_center := true } 5 0 = some (1 / 2 : ℚ) ∧
    ∃ i j : Nat,
      HaltonSampler.sample_dimension ctxW { sW with sample_at_pixel_center := true } i 2 ≠
      HaltonSampler.sample_dimension ctxW { sW with sample_at_pixel_center := true } j 2 :=
  ⟨(sample_dimension_pixel_center ctxW { sW with sample_at_pixel_center := true } 5 0
      rfl).1 (Or.inl rfl),
    (sample_dimension_pixel_center ctxW { sW with sample_at_pixel_center := true } 5 2
      rfl).2.2 (by decide) (by decide) (by decide) (by decide)⟩

/-- C8: for every dimension at least 2, sample_dimension fails fatally
(modelled none) exactly on the dimensions at or above the prime-table
size, because permutation_for_dimension refuses them; every smaller
dimension gets the permutation slice starting at the corresponding
prime-sum offset and the scrambled radical inverse is computed with it,
so no fatal failure occurs. -/
theorem permutation_for_dimension_spec (ctx : LowDiscrepancyCtx) (s : HaltonSampler)
    (index : Nat) (dim : Int) (h2 : 2 ≤ dim) :
    ((ctx.primeTableSize : Int) ≤ dim →
      HaltonSampler.permutation_for_dimension ctx dim = none ∧
      s.sample_dimension ctx index dim = none) ∧
    (dim < (ctx.primeTableSize : Int) →
      HaltonSampler.permutation_for_dimension ctx dim =
        some (fun j => ctx.permTable (ctx.primeSums dim.toNat + j)) ∧
      s.sample_dimension ctx index dim =
        some (scrambled_radical_inverse_base (ctx.primes dim.toNat)
          (fun j => ctx.permTable (ctx.primeSums dim.toNat + j)) index)) := by
  have h0 : dim ≠ 0 := by omega
  have h1 : dim ≠ 1 := by omega
  constructor
  · intro hge
    have hpd : HaltonSampler.permutation_for_dimension ctx dim = none := by
      simp only [HaltonSampler.permutation_for_dimension, if_neg (by omega :
        ¬(0 ≤ dim ∧ dim < (ctx.primeTableSize : Int)))]
    refine ⟨hpd, ?_⟩
    simp [HaltonSampler.sample_dimension, h0, h1, hpd]
  · intro hlt
    have hpd : HaltonSampler.permutation_for_dimension ctx dim =
        some (fun j => ctx.permTable (ctx.primeSums dim.toNat + j)) := by
      simp only [HaltonSampler.permutation_for_dimension]
      rw [if_pos (show 0 ≤ dim ∧ dim < (ctx.primeTableSize : Int) from ⟨by omega, hlt⟩)]
    refine ⟨hpd, ?_⟩
    simp [HaltonSampler.sample_dimension, h0, h1, hpd]

/-- C8 witness: with the three-prime table ctxW, dimension 7 is refused
(none) and dimension 2 draws through the slice at prime-sum offset 5. -/
theorem permutation_for_dimension_spec_witness :
    HaltonSampler.sample_dimension ctxW sW 4 7 = none ∧
    HaltonSampler.permutation_for_dimension ctxW 2 =
      some (fun j => ctxW.permTable (ctxW.primeSums (2 : Int).toNat + j)) :=
  ⟨((permutation_for_dimension_spec ctxW sW 4 7 (by decide)).1 (by decide)).2,
    ((permutation_for_dimension_spec ctxW sW 4 2 (by decide)).2 (by decide)).1⟩

lemma get_index_for_sample_state_fields (s : HaltonSampler) (n : Nat) :
    (s.get_index_for_sample n).1.current_pixel_sample_index =
      s.current_pixel_sample_index ∧
    (s.get_index_for_sample n).1.samples_per_pixel = s.samples_per_pixel := by
  unfold HaltonSampler.get_index_for_sample
  dsimp only
  split <;> simp

lemma get_2d_array_some_state (s : HaltonSampler) (n : Int)
    (r : HaltonSampler × List Point2f) (h : s.get_2d_array n = some r) :
    r.1.current_pixel_sample_index = s.current_pixel_sample_index ∧
    r.1.samples_per_pixel = s.samples_per_pixel := by
  unfold HaltonSampler.get_2d_array at h
  split at h
  · simp only [Option.some.injEq] at h
    subst h
    exact ⟨rfl, rfl⟩
  · split at h
    · split at h
      · simp only [Option.some.injEq] at h
        subst h
        exact ⟨rfl, rfl⟩
      · cases h
    · cases h

lemma applyOp_sample_index_mono (ctx : LowDiscrepancyCtx) (s : HaltonSampler)
    (op : SamplerOp) (hop : ∀ p, op ≠ SamplerOp.startPixel p) :
    s.current_pixel_sample_index ≤ (applyOp ctx s op).1.current_pixel_sample_index ∧
    (applyOp ctx s op).1.samples_per_pixel = s.samples_per_pixel := by
  cases op with
  | startPixel p => exact absurd rfl (hop p)
  | get1d => simp [applyOp, HaltonSampler.get_1d]
  | get2d => simp [applyOp, HaltonSampler.get_2d]
  | get2dArray n =>
    simp only [applyOp]
    cases hga : s.get_2d_array n with
    | none => simp [hga]
    | some r =>
      obtain ⟨h1, h2⟩ := get_2d_array_some_state s n r hga
      simp [hga, h1, h2]
  | startNextSample =>
    have hfld := get_index_for_sample_state_fields s (s.current_pixel_sample_index.toNat + 1)
    refine ⟨?_, ?_⟩
    · simp only [applyOp, HaltonSampler.start_next_sample]
      omega
    · simp only [applyOp, HaltonSampler.start_next_sample]
      exact hfld.2

lemma runOps_sample_index_mono (ctx : LowDiscrepancyCtx) (ops : List SamplerOp) :
    ∀ s : HaltonSampler, (∀ p, SamplerOp.startPixel p ∉ ops) →
      s.current_pixel_sample_index ≤ (runOps ctx ops s).1.current_pixel_sample_index ∧
      (runOps ctx ops s).1.samples_per_pixel = s.samples_per_pixel := by
  induction ops with
  | nil => intro s _; simp [runOps]
  | cons op ops ih =>
    intro s h
    have hop : ∀ p, op ≠ SamplerOp.startPixel p := by
      intro p hp
      exact h p (by rw [← hp]; exact List.mem_cons_self op ops)
    have h1 := applyOp_sample_index_mono ctx s op hop
    have h2 := ih (applyOp ctx s op).1 (fun p hmem => h p (List.mem_cons_of_mem _ hmem))
    simp only [runOps]
    exact ⟨le_trans h1.1 h2.1, h2.2.trans h1.2⟩

/-- C5: get_2d_array returns the empty sequence with the state untouched
once every registered 2D array of the pixel has been consumed; it fails
loudly (none, the panicking assertions) when the requested size differs
from the size registered for the current slot or when the pixel sample
index has passed samples_per_pixel; otherwise it returns exactly the
slice [i * n, i * n + n) of the buffer prefilled at start_pixel time
(whose length is n * samples_per_pixel) and advances the 2D array offset
by one. -/
theorem get_2d_array_contract (s : HaltonSampler) (n : Int) :
    (s.array_2d_offset = s.sample_array_2d.length → s.get_2d_array n = some (s, [])) ∧
    (∀ sz, s.samples_2d_array_sizes.get? s.array_2d_offset = some sz → sz ≠ n →
      s.array_2d_offset ≠ s.sample_array_2d.length → s.get_2d_array n = none) ∧
    (s.samples_per_pixel ≤ s.current_pixel_sample_index →
      s.array_2d_offset ≠ s.sample_array_2d.length → s.get_2d_array n = none) ∧
    (∀ sz buf, s.samples_2d_array_sizes.get? s.array_2d_offset = some sz →
      s.sample_array_2d.get? s.array_2d_offset = some buf →
      sz = n → 0 ≤ n → 0 ≤ s.current_pixel_sample_index →
      s.current_pixel_sample_index < s.samples_per_pixel →
      buf.length = (n * s.samples_per_pixel).toNat →
      s.get_2d_array n =
        some ({ s with array_2d_offset := s.array_2d_offset + 1 },
          (buf.drop (s.current_pixel_sample_index * n).toNat).take n.toNat)) := by
  refine ⟨?_, ?_, ?_, ?_⟩
  · intro h
    simp [HaltonSampler.get_2d_array, h]
  · intro sz hsz hne hoff
    unfold HaltonSampler.get_2d_array
    rw [if_neg hoff]
    cases hbuf : s.sample_array_2d.get? s.array_2d_offset with
    | none => simp [hsz, hbuf]
    | some buf =>
      simp only [hsz, hbuf]
      rw [if_neg]
      rintro ⟨h1, -⟩
      exact hne h1
  · intro hspp hoff
    unfold HaltonSampler.get_2d_array
    rw [if_neg hoff]
    cases hsz : s.samples_2d_array_sizes.get? s.array_2d_offset with
    | none => simp [hsz]
    | some sz =>
      cases hbuf : s.sample_array_2d.get? s.array_2d_offset with
      | none => simp [hsz, hbuf]
      | some buf =>
        simp only [hsz, hbuf]
        rw [if_neg]
        rintro ⟨-, -, h3, -⟩
        omega
  · intro sz buf hsz hbuf hszn hn h0 hlt hlen
    subst hszn
    have hoff : s.array_2d_offset ≠ s.sample_array_2d.length := by
      intro hcontra
      have : s.sample_array_2d.get? s.array_2d_offset = none :=
        List.get?_eq_none.mpr (by omega)
      rw [this] at hbuf
      cases hbuf
    have hbound : (s.current_pixel_sample_index * sz).toNat + sz.toNat ≤ buf.length := by
      have key : (s.current_pixel_sample_index + 1) * sz ≤ s.samples_per_pixel * sz :=
        mul_le_mul_of_nonneg_right (by omega) hn
      have h2 : s.current_pixel_sample_index * sz + sz ≤ sz * s.samples_per_pixel := by
        nlinarith [key]
      calc (s.current_pixel_sample_index * sz).toNat + sz.toNat
          = (s.current_pixel_sample_index * sz + sz).toNat :=
            (Int.toNat_add (mul_nonneg h0 hn) hn).symm
        _ ≤ (sz * s.samples_per_pixel).toNat := Int.toNat_le_toNat h2
        _ = buf.length := by rw [hlen]
    unfold HaltonSampler.get_2d_array
    rw [if_neg hoff]
    simp only [hsz, hbuf]
    rw [if_pos]
    exact ⟨trivial, h0, hlt, hbound⟩

/-- C5 witness: one registered 2D array of size 2, two samples per pixel,
buffer of four points, queried at pixel sample index 1: the second half
of the buffer is returned and the offset advances. -/
theorem get_2d_array_contract_witness :
    HaltonSampler.get_2d_array
      { sW with
        current_pixel_sample_index := 1
        samples_2d_array_sizes := [2]
        sample_array_2d := [[⟨0, 0⟩, ⟨1, 2⟩, ⟨3, 4⟩, ⟨5, 6⟩]] } 2 =
      some ({ sW with
          current_pixel_sample_index := 1
          samples_2d_array_sizes := [2]
          sample_array_2d := [[⟨0, 0⟩, ⟨1, 2⟩, ⟨3, 4⟩, ⟨5, 6⟩]]
          array_2d_offset := 1 },
        (([⟨0, 0⟩, ⟨1, 2⟩, ⟨3, 4⟩, ⟨5, 6⟩] :
            List Point2f).drop ((1 : Int) * 2).toNat).take (2 : Int).toNat) := by
  have h := (get_2d_array_contract
    { sW with
      current_pixel_sample_index := 1
      samples_2d_array_sizes := [2]
      sample_array_2d := [[⟨0, 0⟩, ⟨1, 2⟩, ⟨3, 4⟩, ⟨5, 6⟩]] } 2).2.2.2
    2 [⟨0, 0⟩, ⟨1, 2⟩, ⟨3, 4⟩, ⟨5, 6⟩]
    (by decide) (by decide) rfl (by decide) (by decide) (by decide) (by decide)
  exact h

/-- C6: start_next_sample resets the dimension cursor and both array
offsets, recomputes interval_sample_index for the next sample number,
advances the sample counter by one, returns false exactly when the
advanced counter has reached samples_per_pixel, and once it has returned
false every later call through the draw operations (get_1d, get_2d,
get_2d_array, start_next_sample - anything except a fresh start_pixel)
still returns false. -/
theorem start_next_sample_exhaustion (ctx : LowDiscrepancyCtx) (s : HaltonSampler)
    (ops : List SamplerOp) (hops : ∀ p, SamplerOp.startPixel p ∉ ops) :
    ((s.start_next_sample).2 = false ↔
      s.samples_per_pixel ≤ s.current_pixel_sample_index + 1) ∧
    (s.start_next_sample).1.dimension = 0 ∧
    (s.start_next_sample).1.array_1d_offset = 0 ∧
    (s.start_next_sample).1.array_2d_offset = 0 ∧
    (s.start_next_sample).1.current_pixel_sample_index =
      s.current_pixel_sample_index + 1 ∧
    (s.start_next_sample).1.interval_sample_index =
      (s.get_index_for_sample (s.current_pixel_sample_index.toNat + 1)).2 ∧
    ((s.start_next_sample).2 = false →
      ((runOps ctx ops (s.start_next_sample).1).1.start_next_sample).2 = false) := by
  have hpres := get_index_for_sample_state_fields s (s.current_pixel_sample_index.toNat + 1)
  have hiff : (s.start_next_sample).2 = false ↔
      s.samples_per_pixel ≤ s.current_pixel_sample_index + 1 := by
    simp only [HaltonSampler.start_next_sample, decide_eq_false_iff_not, not_lt]
    rw [hpres.2]
  refine ⟨hiff, rfl, rfl, rfl, rfl, rfl, ?_⟩
  intro hf
  have hspp : s.samples_per_pixel ≤ s.current_pixel_sample_index + 1 := hiff.mp hf
  have hmono := runOps_sample_index_mono ctx ops (s.start_next_sample).1 hops
  have hidx : (s.start_next_sample).1.current_pixel_sample_index =
      s.current_pixel_sample_index + 1 := rfl
  have hspp1 : (s.start_next_sample).1.samples_per_pixel = s.samples_per_pixel := hpres.2
  set t := (runOps ctx ops (s.start_next_sample).1).1 with ht
  have hprest := get_index_for_sample_state_fields t (t.current_pixel_sample_index.toNat + 1)
  simp only [HaltonSampler.start_next_sample, decide_eq_false_iff_not, not_lt]
  rw [hprest.2]
  omega

/-- C6 witness: a single-sample-per-pixel sampler: the first
start_next_sample returns false, and after a further get_1d it still
returns false. -/
theorem start_next_sample_exhaustion_witness :
    (({ sW with samples_per_pixel := 1 } : HaltonSampler).start_next_sample).2 = false ∧
    ((runOps ctxW [SamplerOp.get1d]
        (({ sW with samples_per_pixel := 1 } :
          HaltonSampler).start_next_sample).1).1.start_next_sample).2 = false := by
  have hops : ∀ p, SamplerOp.startPixel p ∉ [SamplerOp.get1d] := by
    intro p
    simp
  have h := start_next_sample_exhaustion ctxW { sW with samples_per_pixel := 1 }
    [SamplerOp.get1d] hops
  have hf : (({ sW with samples_per_pixel := 1 } :
      HaltonSampler).start_next_sample).2 = false := h.1.mpr (by decide)
  exact ⟨hf, h.2.2.2.2.2.2 hf⟩

/-- C9: cloning reproduces every observable field, so a clone is equal as
a value to the original, and any identical operation sequence applied to
both returns identical values and states.  Memory-level independence of
the duplicated buffers has no observable counterpart in a value
semantics; value equality is the observable content. -/
theorem clone_deterministic (ctx : LowDiscrepancyCtx) (s : HaltonSampler) :
    s.clone = s ∧
    ∀ ops : List SamplerOp, runOps ctx ops s.clone = runOps ctx ops s := by
  have h : s.clone = s := by cases s; rfl
  exact ⟨h, fun ops => by rw [h]⟩

end RsPbrt
